import Mathlib

set_option maxRecDepth 100000

/-!
# Verification of the devops-agent tool-call orchestration protocol

This file gives a shallow embedding, in Lean 4, of the core of the
`devops-agent` repository: the tool-call parsers of the Ollama and
OpenRouter backends (`src/ollama_backend.py`, `src/openrouter_backend.py`),
the guardrail checks of `DevOpsAgent.execute_tool_call` (`src/agent.py`),
the OpenRouter retry/rate-limit loop, the backend response handling, and
the observation formatting of `_qwen_friendly_to_messages`
(`src/agent.py`, `src/smolagents_patches.py`).

Text is modelled as `List Char`.  Python's `json` module is modelled by an
executable JSON value type, parser and printer covering the fragment the
program exercises (objects, arrays, strings with common escapes, integer
numerals, booleans, null); floating-point numerals are outside the
modelled fragment and rejected by the parser.  Wall-clock time for the
rate-limit model is `ℚ`.
-/

/-- Whitespace test used throughout: models Python's `str.strip` /
`\s` over the ASCII whitespace characters. -/
def isWS (c : Char) : Bool :=
  c = ' ' || c = '\t' || c = '\n' || c = '\r' || c = '\x0b' || c = '\x0c'

/-- Python `str.strip()`: drop trailing whitespace (via reverse), then
leading whitespace. -/
def pyStrip (s : List Char) : List Char :=
  ((s.reverse.dropWhile isWS).reverse).dropWhile isWS

/-- JSON values, as produced by Python's `json.loads` on the fragment the
program exercises. -/
inductive Json where
  | null : Json
  | bool (b : Bool) : Json
  | num (n : Int) : Json
  | str (s : List Char) : Json
  | arr (elems : List Json) : Json
  | obj (fields : List (List Char × Json)) : Json

/-- Value of a hexadecimal digit, for `\uXXXX` string escapes. -/
def hexVal (c : Char) : Option Nat :=
  if '0' ≤ c ∧ c ≤ '9' then some (c.toNat - 48)
  else if 'a' ≤ c ∧ c ≤ 'f' then some (c.toNat - 87)
  else if 'A' ≤ c ∧ c ≤ 'F' then some (c.toNat - 55)
  else none

/-- Parse the body of a JSON string literal (after the opening quote);
returns the decoded characters and the input remaining after the closing
quote. -/
def parseJStr : List Char → Option (List Char × List Char)
  | [] => none
  | '"' :: rest => some ([], rest)
  | '\\' :: 'u' :: a :: b :: c :: d :: rest => do
    let ha ← hexVal a
    let hb ← hexVal b
    let hc ← hexVal c
    let hd ← hexVal d
    let (s, r) ← parseJStr rest
    return (Char.ofNat (((ha * 16 + hb) * 16 + hc) * 16 + hd) :: s, r)
  | '\\' :: e :: rest => do
    let c ←
      if e = 'n' then some '\n'
      else if e = 't' then some '\t'
      else if e = 'r' then some '\r'
      else if e = '"' then some '"'
      else if e = '\\' then some '\\'
      else if e = '/' then some '/'
      else if e = 'b' then some '\x08'
      else if e = 'f' then some '\x0c'
      else none
    let (s, r) ← parseJStr rest
    return (c :: s, r)
  | c :: rest => do
    let (s, r) ← parseJStr rest
    return (c :: s, r)

/-- Parse an integer numeral (digits already known to start the input).
Floating-point forms (`.`, `e`, `E` after the digits) are outside the
modelled fragment and rejected. -/
def parseJNum (neg : Bool) (s : List Char) : Option (Json × List Char) :=
  let (ds, rest) := s.span (·.isDigit)
  if ds = [] then none
  else match rest with
    | '.' :: _ => none
    | 'e' :: _ => none
    | 'E' :: _ => none
    | _ =>
      let n : Nat := ds.foldl (fun acc c => acc * 10 + (c.toNat - 48)) 0
      some (Json.num (if neg then -(n : Int) else (n : Int)), rest)

mutual

/-- Parse one JSON value, returning it and the remaining input.  The fuel
argument bounds recursion depth; `jsonParse` supplies `length + 1`, which
suffices because every recursive step consumes at least one character. -/
def parseJVal : Nat → List Char → Option (Json × List Char)
  | 0, _ => none
  | fuel+1, s =>
    match s.dropWhile isWS with
    | [] => none
    | '\x7b' :: rest =>
      match rest.dropWhile isWS with
      | '\x7d' :: r => some (Json.obj [], r)
      | _ => do
        let (ms, r) ← parseJMembers fuel rest
        return (Json.obj ms, r)
    | '[' :: rest =>
      match rest.dropWhile isWS with
      | ']' :: r => some (Json.arr [], r)
      | _ => do
        let (vs, r) ← parseJElems fuel rest
        return (Json.arr vs, r)
    | '"' :: rest => do
      let (str, r) ← parseJStr rest
      return (Json.str str, r)
    | 't' :: rest =>
      if [ 'r', 'u', 'e'].isPrefixOf rest then some (Json.bool true, rest.drop 3) else none
    | 'f' :: rest =>
      if [ 'a', 'l', 's', 'e'].isPrefixOf rest then some (Json.bool false, rest.drop 4) else none
    | 'n' :: rest =>
      if [ 'u', 'l', 'l'].isPrefixOf rest then some (Json.null, rest.drop 3) else none
    | '-' :: rest => parseJNum true rest
    | c :: rest => if c.isDigit then parseJNum false (c :: rest) else none

/-- Parse the (nonempty) element list of a JSON array, up to and including
the closing bracket. -/
def parseJElems : Nat → List Char → Option (List Json × List Char)
  | 0, _ => none
  | fuel+1, s => do
    let (v, r) ← parseJVal fuel s
    match r.dropWhile isWS with
    | ',' :: r2 => do
      let (vs, r3) ← parseJElems fuel r2
      return (v :: vs, r3)
    | ']' :: r2 => return ([v], r2)
    | _ => none

/-- Parse the (nonempty) member list of a JSON object, up to and including
the closing brace. -/
def parseJMembers : Nat → List Char → Option (List (List Char × Json) × List Char)
  | 0, _ => none
  | fuel+1, s =>
    match s.dropWhile isWS with
    | '"' :: r => do
      let (k, r1) ← parseJStr r
      match r1.dropWhile isWS with
      | ':' :: r2 => do
        let (v, r3) ← parseJVal fuel r2
        match r3.dropWhile isWS with
        | ',' :: r4 => do
          let (ms, r5) ← parseJMembers fuel r4
          return ((k, v) :: ms, r5)
        | '\x7d' :: r4 => return ([(k, v)], r4)
        | _ => none
      | _ => none
    | _ => none

end

/-- Python `json.loads`: parse a complete document, requiring only
whitespace after the value. -/
def jsonParse (s : List Char) : Option Json :=
  match parseJVal (s.length + 1) s with
  | some (j, rest) => if rest.dropWhile isWS = [] then some j else none
  | none => none

/-- Strict lexicographic comparison of strings by code point, as Python's
`<` on `str`, used by `json.dumps(sort_keys=True)`. -/
def keyLt : List Char → List Char → Bool
  | _ :: _, [] => false
  | [], ys => !ys.isEmpty
  | x :: xs, y :: ys => if x < y then true else if y < x then false else keyLt xs ys

/-- Insert one field into a key-sorted field list (ascending). -/
def insertField (x : List Char × Json) : List (List Char × Json) → List (List Char × Json)
  | [] => [x]
  | y :: ys => if keyLt x.1 y.1 then x :: y :: ys else y :: insertField x ys

/-- Sort object fields by key, ascending. -/
def sortFields (fs : List (List Char × Json)) : List (List Char × Json) :=
  fs.foldr insertField []

mutual

/-- Canonicalize a JSON value by sorting every object's fields by key —
the normal form printed by `json.dumps(..., sort_keys=True)`. -/
def canonJson : Json → Json
  | .arr xs => .arr (canonJsonList xs)
  | .obj fs => .obj (sortFields (canonJsonFields fs))
  | j => j

def canonJsonList : List Json → List Json
  | [] => []
  | x :: xs => canonJson x :: canonJsonList xs

def canonJsonFields : List (List Char × Json) → List (List Char × Json)
  | [] => []
  | (k, v) :: fs => (k, canonJson v) :: canonJsonFields fs

end

/-- String escaping of Python `json.dumps` on the modelled fragment
(printable ASCII plus the common control characters). -/
def escChars : List Char → List Char
  | [] => []
  | c :: cs =>
    (if c = '"' then [ '\\', '"']
     else if c = '\\' then [ '\\', '\\']
     else if c = '\n' then [ '\\', 'n']
     else if c = '\t' then [ '\\', 't']
     else if c = '\r' then [ '\\', 'r']
     else [c]) ++ escChars cs

/-- Decimal digits of an integer. -/
def intChars (n : Int) : List Char :=
  match n with
  | .ofNat m => Nat.toDigits 10 m
  | .negSucc m => '-' :: Nat.toDigits 10 (m + 1)

mutual

/-- Python `json.dumps` with its default separators `", "` and `": "`.
Applied after `canonJson` it is `json.dumps(..., sort_keys=True)`. -/
def dumpJson : Json → List Char
  | .null => "null".toList
  | .bool true => "true".toList
  | .bool false => "false".toList
  | .num n => intChars n
  | .str s => '"' :: (escChars s ++ [ '"'])
  | .arr xs => '[' :: (dumpJsonList xs ++ [ ']'])
  | .obj fs => '\x7b' :: (dumpJsonFields fs ++ [ '\x7d'])

def dumpJsonList : List Json → List Char
  | [] => []
  | [x] => dumpJson x
  | x :: y :: xs => dumpJson x ++ [ ',', ' '] ++ dumpJsonList (y :: xs)

def dumpJsonFields : List (List Char × Json) → List Char
  | [] => []
  | [(k, v)] => '"' :: (escChars k ++ [ '"', ':', ' ']) ++ dumpJson v
  | (k, v) :: f :: fs =>
    ('"' :: (escChars k ++ [ '"', ':', ' ']) ++ dumpJson v) ++ [ ',', ' '] ++
      dumpJsonFields (f :: fs)

end

/-- Python `repr`, as applied by `str(...)` to a `json.loads` result
(dict/list/str/int/bool/None), on the modelled fragment: single-quoted
strings, capitalized literals. -/
def pyReprStr (s : List Char) : List Char := '\x27' :: (s ++ [ '\x27'])

mutual

def pyRepr : Json → List Char
  | .null => "None".toList
  | .bool true => "True".toList
  | .bool false => "False".toList
  | .num n => intChars n
  | .str s => pyReprStr s
  | .arr xs => '[' :: (pyReprList xs ++ [ ']'])
  | .obj fs => '\x7b' :: (pyReprFields fs ++ [ '\x7d'])

def pyReprList : List Json → List Char
  | [] => []
  | [x] => pyRepr x
  | x :: y :: xs => pyRepr x ++ [ ',', ' '] ++ pyReprList (y :: xs)

def pyReprFields : List (List Char × Json) → List Char
  | [] => []
  | [(k, v)] => pyReprStr k ++ [ ':', ' '] ++ pyRepr v
  | (k, v) :: f :: fs =>
    (pyReprStr k ++ [ ':', ' '] ++ pyRepr v) ++ [ ',', ' '] ++ pyReprFields (f :: fs)

end

/-- A parsed tool invocation (`FunctionCall(name=..., arguments=...)` in the
source; the per-call `uuid` id carries no information and is not modelled). -/
structure ToolCall where
  name : List Char
  arguments : Json

def finalAnswerName : List Char := "final_answer".toList

/-- The terminal-answer exclusivity step shared by both backends'
`parse_tool_calls`: if `final_answer` is present together with other
tools, remove it (src/ollama_backend.py lines 360-367,
src/openrouter_backend.py lines 355-361). -/
def stripFinalAnswer (calls : List ToolCall) : List ToolCall :=
  let hasFinalAnswer := calls.any (fun c => c.name == finalAnswerName)
  let hasOtherTools := calls.any (fun c => !(c.name == finalAnswerName))
  if hasFinalAnswer && hasOtherTools then
    calls.filter (fun c => !(c.name == finalAnswerName))
  else calls

/-- All indices at which `pat` occurs in `text` (ascending). -/
def occIdxs (pat text : List Char) : List Nat :=
  (List.range (text.length + 1)).filter (fun i => pat.isPrefixOf (text.drop i))

/-- Index of the first occurrence of `pat` in `text`. -/
def firstOccIdx (pat text : List Char) : Option Nat := (occIdxs pat text).head?

/-- Index of the last occurrence of `pat` in `text`. -/
def lastOccIdx (pat text : List Char) : Option Nat := (occIdxs pat text).getLast?

def openTag : List Char := "<tool_call>".toList

def closeTag : List Char := "</tool_call>".toList

/-- `re.finditer(r"<tool_call>\s*(.*)\s*</tool_call>", text, re.DOTALL)` of
the Ollama backend.  The greedy `(.*)` makes each match run from the first
`<tool_call>` to the *last* `</tool_call>`; scanning resumes after the
match.  The group's `\s*` trimming is subsumed by the `.strip()` the
caller applies, so the raw span between the tags is returned.  Fuel bounds
the recursion; each step consumes at least one character, so
`text.length + 1` suffices. -/
def ollamaXmlMatchesAux : Nat → List Char → List (List Char)
  | 0, _ => []
  | fuel+1, text =>
    match firstOccIdx openTag text with
    | none => []
    | some l =>
      let rest := text.drop (l + 11)
      match lastOccIdx closeTag rest with
      | none => []
      | some j => rest.take j :: ollamaXmlMatchesAux fuel (rest.drop (j + 12))

def ollamaXmlMatches (text : List Char) : List (List Char) :=
  ollamaXmlMatchesAux (text.length + 1) text

/-- Non-greedy block scanning:
`re.finditer(openPat + r"\s*(\{.*?\})\s*" + closePat, text, re.DOTALL)`,
the shape of the OpenRouter `<tool_call>` pattern and of both backends'
fenced ```json fallback pattern.  After `openPat`, only whitespace may
precede the opening brace; the lazy `.*?` ends at the first closing brace
followed by whitespace and `closePat`.  On failure the scan advances one
character, as the regex engine does. -/
def findCloseIdx (closePat a2 : List Char) : Option Nat :=
  ((List.range (a2.length + 1)).filter (fun k =>
    decide (0 < k) && ((a2.drop k).head? == some '\x7d')
      && closePat.isPrefixOf ((a2.drop (k + 1)).dropWhile isWS))).head?

def scanLazyAux (openPat closePat : List Char) : Nat → List Char → List (List Char)
  | 0, _ => []
  | _+1, [] => []
  | fuel+1, text@(_ :: tl) =>
    if openPat.isPrefixOf text then
      let a2 := (text.drop openPat.length).dropWhile isWS
      match a2 with
      | '\x7b' :: _ =>
        match findCloseIdx closePat a2 with
        | some k =>
          let cap := a2.take (k + 1)
          let rem := ((a2.drop (k + 1)).dropWhile isWS).drop closePat.length
          cap :: scanLazyAux openPat closePat fuel rem
        | none => scanLazyAux openPat closePat fuel tl
      | _ => scanLazyAux openPat closePat fuel tl
    else scanLazyAux openPat closePat fuel tl

def scanLazy (openPat closePat text : List Char) : List (List Char) :=
  scanLazyAux openPat closePat (text.length + 1) text

def fenceOpen : List Char := "```json".toList

def fenceClose : List Char := "```".toList

/-- Build a `ToolCall` from a decoded JSON object, with the defaults of
`tool_data.get("name", "unknown")` and `tool_data.get("arguments", {})`.
(A non-string `"name"` value is outside the modelled fragment and is
conflated with the missing-key default.) -/
def toolCallOfObj (fields : List (List Char × Json)) : ToolCall :=
  let name := match fields.lookup ( "name".toList) with
    | some (Json.str s) => s
    | _ => "unknown".toList
  let args := (fields.lookup ( "arguments".toList)).getD (Json.obj [])
  ⟨name, args⟩

/-- Count of opening braces minus the missing closing braces repair of the
Ollama backend (src/ollama_backend.py lines 311-319): if `'{'` occurrences
exceed `'}'` occurrences, append the difference. -/
def braceFix (s : List Char) : List Char :=
  let openBraces := s.count '\x7b'
  let closeBraces := s.count '\x7d'
  if closeBraces < openBraces then s ++ List.replicate (openBraces - closeBraces) '\x7d'
  else s

/-- Outcome of processing one captured tagged block in the Ollama backend. -/
inductive CandOutcome where
  | call (c : ToolCall)
  | dropped
  | crash

/-- One iteration of the Ollama backend's per-match loop: strip, repair
braces, `json.loads`; a decode failure drops the candidate (the printed
malformed-call report), a non-object document would crash the loop with an
uncaught `AttributeError` at `tool_data.get`. -/
def ollamaProcessBlock (raw : List Char) : CandOutcome :=
  let jsonStr := braceFix (pyStrip raw)
  match jsonParse jsonStr with
  | some (Json.obj fields) => .call (toolCallOfObj fields)
  | some _ => .crash
  | none => .dropped

inductive ParseFailure where
  | protocolViolation (n : Nat)
  | attributeError

structure ParsedCalls where
  calls : List ToolCall
  droppedMalformed : Nat

/-- The markdown ```json fallback loop shared by both backends: accept
each fenced object that has both a `"name"` and an `"arguments"` key;
decode failures are skipped silently. -/
def fencedJsonCalls (text : List Char) : List ToolCall :=
  (scanLazy fenceOpen fenceClose text).foldl (fun acc cap =>
    match jsonParse cap with
    | some (Json.obj fields) =>
      if (fields.lookup ( "name".toList)).isSome
          && (fields.lookup ( "arguments".toList)).isSome then
        acc ++ [toolCallOfObj fields]
      else acc
    | _ => acc) []

/-- First pass of `OllamaChat.parse_tool_calls`: the tagged-block matches,
the more-than-one check (`raise ValueError`), and the per-match loop.
Returns the accepted calls and the number of dropped malformed candidates. -/
def ollamaTaggedScan (text : List Char) : Except ParseFailure (List ToolCall × Nat) :=
  let ms := ollamaXmlMatches text
  if 1 < ms.length then .error (.protocolViolation ms.length)
  else ms.foldlM (fun (acc : List ToolCall × Nat) raw =>
    match ollamaProcessBlock raw with
    | .call c => Except.ok (acc.1 ++ [c], acc.2)
    | .dropped => Except.ok (acc.1, acc.2 + 1)
    | .crash => Except.error ParseFailure.attributeError) ([], 0)

/-- `OllamaChat.parse_tool_calls` (src/ollama_backend.py lines 261-371):
tagged-block pass, markdown fallback when no calls were produced, then the
terminal-answer exclusivity step. -/
def ollama_parse_tool_calls (text : List Char) : Except ParseFailure ParsedCalls := do
  let (cs, dropped) ← ollamaTaggedScan text
  let calls := if cs.isEmpty then fencedJsonCalls text else cs
  return ⟨stripFinalAnswer calls, dropped⟩

/-- First pass of `OpenRouterChat.parse_tool_calls`: the non-greedy
tagged-block matches and the per-match loop (no multiplicity check, no
brace repair in this backend). -/
def openrouterTaggedScan (text : List Char) : List ToolCall × Nat :=
  (scanLazy openTag closeTag text).foldl (fun acc cap =>
    match jsonParse cap with
    | some (Json.obj fields) => (acc.1 ++ [toolCallOfObj fields], acc.2)
    | some _ => acc
    | none => (acc.1, acc.2 + 1)) ([], 0)

/-- `OpenRouterChat.parse_tool_calls` (src/openrouter_backend.py lines
286-365): tagged-block pass, markdown fallback when no calls were
produced, then the terminal-answer exclusivity step. -/
def openrouter_parse_tool_calls (text : List Char) : ParsedCalls :=
  let step := openrouterTaggedScan text
  let calls := if step.1.isEmpty then fencedJsonCalls text else step.1
  ⟨stripFinalAnswer calls, step.2⟩

/-- `json.dumps({"tool": tool_name, "args": arguments}, sort_keys=True)` —
the call signature of src/agent.py line 227. -/
def callSignature (toolName : List Char) (args : Json) : List Char :=
  dumpJson (canonJson (Json.obj [( "args".toList, args), ( "tool".toList, Json.str toolName)]))

/-- The agent state read by the guardrails of
`DevOpsAgent.execute_tool_call`: the stored signature of the previous
non-terminal call, and the names of the tool calls recorded in
`self.memory.steps`. -/
structure AgentState where
  lastToolCall : Option (List Char)
  memorySteps : List (List (List Char))

/-- The count of non-`final_answer` tool calls recorded in memory
(src/agent.py lines 244-262). -/
def actualToolCallCount (steps : List (List (List Char))) : Nat :=
  steps.foldl (fun acc names => acc + (names.filter (fun n => !(n == finalAnswerName))).length) 0

inductive GuardrailReject where
  | repeatedCall
  | hallucinatedTerminal

/-- `DevOpsAgent.execute_tool_call` guardrails (src/agent.py lines
219-273).  `.ok st` means the call passed both checks and proceeds to
`super().execute_tool_call` (the dispatching executor) with the updated
state; `.error` models the raised `ValueError`. -/
def execute_tool_call (st : AgentState) (toolName : List Char) (args : Json) :
    Except GuardrailReject AgentState :=
  let sig := callSignature toolName args
  if st.lastToolCall == some sig && !(toolName == finalAnswerName) then
    .error .repeatedCall
  else
    let st1 := if !(toolName == finalAnswerName) then { st with lastToolCall := some sig } else st
    if toolName == finalAnswerName && actualToolCallCount st1.memorySteps == 0 then
      .error .hallucinatedTerminal
    else
      .ok st1

/-- An HTTP response as the `requests` library reports it: status code and
body text. -/
structure HttpResp where
  status : Nat
  body : List Char

/-- `requests.Response.ok`: true iff the status code is below 400. -/
def respOk (r : HttpResp) : Bool := r.status < 400

/-- Failures raised by the backend `generate` methods. -/
inductive BackendError where
  | rateLimited (status : Nat) (retries : Nat) (detail : List Char)
  | httpError (status : Nat) (detail : List Char)
  | jsonDecode
  | envelopeTypeError
  | loopExhausted

def maxRetries : Nat := 5

def baseDelay : ℚ := 1

def maxDelay : ℚ := 60

/-- The OpenRouter error-detail extraction (src/openrouter_backend.py
lines 246-251, 256-261): `resp.json().get("error", {}).get("message",
resp.text)`, falling back to the raw body when the body is not JSON, the
`error` member is not an object, or the message is missing. -/
def errDetail (body : List Char) : List Char :=
  match jsonParse body with
  | some (Json.obj fields) =>
    match fields.lookup ( "error".toList) with
    | some (Json.obj efields) =>
      match efields.lookup ( "message".toList) with
      | some (Json.str s) => s
      | _ => body
    | _ => body
  | _ => body

/-- The retry loop of `OpenRouterChat.generate` (src/openrouter_backend.py
lines 224-265): `for attempt in range(max_retries)`, with exponential
backoff on 429 while `attempt < max_retries - 1`, exhaustion error on the
last 429, immediate error on any other non-ok status, and success
otherwise.  Returns the backoff sleeps performed and the outcome.
`responses attempt` is the response the network returns to the
`attempt`-th request.  Fuel starts at `maxRetries`, exactly the loop
bound; `.loopExhausted` is the (unreachable) fall-through. -/
def openrouter_generate_retry (responses : Nat → HttpResp) :
    Nat → Nat → List ℚ × Except BackendError HttpResp
  | 0, _ => ([], .error .loopExhausted)
  | fuel+1, attempt =>
    let resp := responses attempt
    if resp.status = 429 then
      if attempt < maxRetries - 1 then
        let delay := min (baseDelay * 2 ^ attempt) maxDelay
        let (ds, r) := openrouter_generate_retry responses fuel (attempt + 1)
        (delay :: ds, r)
      else ([], .error (.rateLimited resp.status maxRetries (errDetail resp.body)))
    else if !respOk resp then ([], .error (.httpError resp.status (errDetail resp.body)))
    else ([], .ok resp)

/-- One timed `generate` call for the rate-limit model: the exogenous idle
time before the call, the network duration of each attempt, and the status
of each response. -/
structure GenCall where
  idle : ℚ
  durations : Nat → ℚ
  statuses : Nat → Nat

/-- Result of a timed retry loop: the wall-clock instants at which
requests were issued (the successive values of `self.last_request_time`),
the final `last_request_time`, the final wall clock, and whether the call
returned (vs raised). -/
structure TimedResult where
  times : List ℚ
  last : ℚ
  now : ℚ
  ok : Bool

/-- The retry loop of `OpenRouterChat.generate` with explicit wall-clock
time: `self.last_request_time = time.time()` before each `requests.post`,
the response arriving after `durations attempt`, and a backoff sleep of
`min(base_delay * 2 ** attempt, max_delay)` before a retry. -/
def retryTimed (statuses : Nat → Nat) (durations : Nat → ℚ) :
    Nat → Nat → ℚ → ℚ → TimedResult
  | 0, _, now, last => ⟨[], last, now, false⟩
  | fuel+1, attempt, now, _last =>
    let t := now
    let now1 := now + durations attempt
    if statuses attempt = 429 then
      if attempt < maxRetries - 1 then
        let b := min (baseDelay * 2 ^ attempt) maxDelay
        let r := retryTimed statuses durations fuel (attempt + 1) (now1 + b) t
        ⟨t :: r.times, r.last, r.now, r.ok⟩
      else ⟨[t], t, now1, false⟩
    else if statuses attempt < 400 then ⟨[t], t, now1, true⟩
    else ⟨[t], t, now1, false⟩

/-- One timed `OpenRouterChat.generate` call (src/openrouter_backend.py
lines 211-232): wall clock advances by the idle time, then the rate
limiter sleeps `rate_limit_delay - elapsed` if the elapsed time since
`last_request_time` is below `rate_limit_delay` (and rate limiting is
enabled, `delay > 0`), then the retry loop runs. -/
def generateTimed (delay : ℚ) (c : GenCall) (now last : ℚ) : TimedResult :=
  let now1 := now + c.idle
  let now2 := if 0 < delay ∧ now1 - last < delay then last + delay else now1
  retryTimed c.statuses c.durations maxRetries 0 now2 last

/-- A run of consecutive `generate` calls through one backend instance,
recording each call's request-issue instants.  A call that raises ends the
run. -/
def runTimed (delay : ℚ) : List GenCall → ℚ → ℚ → List (List ℚ)
  | [], _, _ => []
  | c :: cs, now, last =>
    let r := generateTimed delay c now last
    r.times :: (if r.ok then runTimed delay cs r.now r.last else [])

/-- An assistant message as returned by `generate`. -/
structure ChatMsg where
  role : List Char
  content : List Char

def assistantRole : List Char := "assistant".toList

/-- Content extraction from a decoded Ollama response envelope
(src/ollama_backend.py lines 245-252): `data["message"].get("content",
"").strip()` when a `message` member exists, `data["response"].strip()`
when a `response` member exists, `str(data)` otherwise.  Attribute/method
access on a value of the wrong type raises (uncaught) — modelled as
`envelopeTypeError`; Python's `in` on a non-dict document is outside the
modelled fragment and also mapped to `envelopeTypeError`. -/
def ollamaExtract (data : Json) : Except BackendError ChatMsg :=
  match data with
  | Json.obj fields =>
    match fields.lookup ( "message".toList) with
    | some (Json.obj mfields) =>
      match mfields.lookup ( "content".toList) with
      | some (Json.str s) => .ok ⟨assistantRole, pyStrip s⟩
      | some _ => .error .envelopeTypeError
      | none => .ok ⟨assistantRole, []⟩
    | some _ => .error .envelopeTypeError
    | none =>
      match fields.lookup ( "response".toList) with
      | some (Json.str s) => .ok ⟨assistantRole, pyStrip s⟩
      | some _ => .error .envelopeTypeError
      | none => .ok ⟨assistantRole, pyRepr data⟩
  | _ => .error .envelopeTypeError

/-- Response handling of `OllamaChat.generate` (src/ollama_backend.py
lines 235-255): `if not resp.ok: raise RuntimeError(...)`, then
`resp.json()` (raising on an undecodable body), then content
extraction. -/
def ollamaHandleResponse (resp : HttpResp) : Except BackendError ChatMsg :=
  if !respOk resp then .error (.httpError resp.status resp.body)
  else
    match jsonParse resp.body with
    | none => .error .jsonDecode
    | some data => ollamaExtract data

/-- Content extraction from a decoded OpenRouter response envelope
(src/openrouter_backend.py lines 273-277):
`data["choices"][0]["message"].get("content", "").strip()` when a
nonempty `choices` member exists, `str(data)` otherwise.  Indexing and
attribute access on values of the wrong shape raise (uncaught) — modelled
as `envelopeTypeError`, as is Python's `in`/`len` on a non-dict/non-list
value. -/
def openrouterExtract (data : Json) : Except BackendError ChatMsg :=
  match data with
  | Json.obj fields =>
    match fields.lookup ( "choices".toList) with
    | some (Json.arr (first :: _)) =>
      match first with
      | Json.obj cfields =>
        match cfields.lookup ( "message".toList) with
        | some (Json.obj mfields) =>
          match mfields.lookup ( "content".toList) with
          | some (Json.str s) => .ok ⟨assistantRole, pyStrip s⟩
          | some _ => .error .envelopeTypeError
          | none => .ok ⟨assistantRole, []⟩
        | _ => .error .envelopeTypeError
      | _ => .error .envelopeTypeError
    | some (Json.arr []) => .ok ⟨assistantRole, pyRepr data⟩
    | some _ => .error .envelopeTypeError
    | none => .ok ⟨assistantRole, pyRepr data⟩
  | _ => .error .envelopeTypeError

/-- `OpenRouterChat.generate` after serialization (src/openrouter_backend.py
lines 224-280): the retry loop, then `resp.json()` and content
extraction.  Returns the backoff sleeps and the outcome. -/
def openrouter_generate (responses : Nat → HttpResp) :
    List ℚ × Except BackendError ChatMsg :=
  let (sleeps, r) := openrouter_generate_retry responses maxRetries 0
  (sleeps, r.bind (fun resp =>
    match jsonParse resp.body with
    | none => .error .jsonDecode
    | some data => openrouterExtract data))

/-- The fixed replacement sentence for empty observations
(src/agent.py line 58, src/smolagents_patches.py line 61). -/
def emptyObsMessage : List Char :=
  "Command executed successfully but returned no output. This likely means no results were found or nothing is configured. Try an alternative command or report this accurately.".toList

/-- The observation prefix of the explicit formatting
(`f"The value is: \x7bobservation_text\x7d"`). -/
def theValueIs : List Char := "The value is: ".toList

/-- The part of a recorded `ActionStep` read by the observation
formatting: the names of its tool calls and the raw observation text. -/
structure ActionStep where
  toolCallNames : List (List Char)
  observations : Option (List Char)

/-- `tool_name` extraction of `_qwen_friendly_to_messages`: the first tool
call's name, or `"unknown_tool"` when none was recorded. -/
def stepToolName (step : ActionStep) : List Char :=
  match step.toolCallNames with
  | [] => "unknown_tool".toList
  | n :: _ => n

/-- The observation formatting of `_qwen_friendly_to_messages`
(src/agent.py lines 52-61, src/smolagents_patches.py lines 55-64):
the stripped observation; if it is empty and the tool is not
`final_answer`, the fixed no-output sentence, otherwise the
`"The value is: "` prefix. -/
def formattedObservation (toolName obs : List Char) : List Char :=
  let observationText := pyStrip obs
  if !(toolName == finalAnswerName) && observationText == [] then emptyObsMessage
  else theValueIs ++ observationText

/-- The tool-response message `_qwen_friendly_to_messages` appends for a
step: present exactly when `self.observations is not None`, with the
formatted observation as its text. -/
def toMessagesToolResponse (step : ActionStep) : Option (List Char) :=
  step.observations.map (fun obs => formattedObservation (stepToolName step) obs)

def twoBlockReply : List Char :=
  "<tool_call>\n\x7b\"name\": \"get_env\", \"arguments\": \x7b\"key\": \"A\"\x7d\x7d\n</tool_call>\n<tool_call>\n\x7b\"name\": \"bash\", \"arguments\": \x7b\"command\": \"ls\"\x7d\x7d\n</tool_call>".toList

def getEnvCall : ToolCall := ⟨ "get_env".toList, Json.obj [( "key".toList, Json.str ( "A".toList))]⟩

def bashLsCall : ToolCall := ⟨ "bash".toList, Json.obj [( "command".toList, Json.str ( "ls".toList))]⟩

def truncatedReply : List Char :=
  "<tool_call>\n\x7b\"name\": \"bash\", \"arguments\": \x7b\"command\": \"ls\"\x7d\n</tool_call>".toList

def untruncatedReply : List Char :=
  "<tool_call>\n\x7b\"name\": \"bash\", \"arguments\": \x7b\"command\": \"ls\"\x7d\x7d\n</tool_call>".toList

def stillBadReply : List Char := "<tool_call>\x7b\"name\": oops</tool_call>".toList

def mixedReply : List Char :=
  "<tool_call>not json</tool_call>\n```json\n\x7b\"name\": \"bash\", \"arguments\": \x7b\"command\": \"ls\"\x7d\x7d\n```".toList

def redirectBody : List Char := "\x7b\"message\": \x7b\"content\": \"hi\"\x7d\x7d".toList

def emptyEnvelopeBody : List Char := "\x7b\"message\": \x7b\x7d\x7d".toList

theorem isPrefixOf_length_le : ∀ (pat l : List Char), pat.isPrefixOf l = true → pat.length ≤ l.length
  | [], l, _ => by simp
  | a :: as, [], h => by simp [List.isPrefixOf] at h
  | a :: as, b :: bs, h => by
    simp only [List.isPrefixOf, Bool.and_eq_true] at h
    simpa using isPrefixOf_length_le as bs h.2

theorem mem_occIdxs {pat text : List Char} {i : Nat} :
    i ∈ occIdxs pat text ↔ i < text.length + 1 ∧ pat.isPrefixOf (text.drop i) = true := by
  simp [occIdxs, List.mem_filter, List.mem_range]

theorem occIdxs_pairwise (pat text : List Char) : (occIdxs pat text).Pairwise (· < ·) :=
  (List.pairwise_lt_range _).filter _

theorem getLast?_mem_list {α : Type} {l : List α} {j : α} (h : l.getLast? = some j) : j ∈ l := by
  have hj : j ∈ l.getLast? := by simp [Option.mem_def, h]
  obtain ⟨hne, rfl⟩ := List.mem_getLast?_eq_getLast hj
  exact List.getLast_mem hne

theorem pairwise_lt_getLast_le :
    ∀ (l : List Nat) (j : Nat), l.Pairwise (· < ·) → l.getLast? = some j →
      ∀ i ∈ l, i ≤ j := by
  intro l
  induction l with
  | nil => intro j _ h; simp at h
  | cons a t ih =>
    intro j hp hl i hi
    cases t with
    | nil =>
      simp at hl hi
      omega
    | cons b t' =>
      rw [List.getLast?_cons_cons] at hl
      rcases List.mem_cons.mp hi with rfl | hmem
      · have hj : j ∈ b :: t' := getLast?_mem_list hl
        have := (List.pairwise_cons.mp hp).1 j hj
        omega
      · exact ih j (List.pairwise_cons.mp hp).2 hl i hmem

theorem lastOccIdx_isPrefix {pat text : List Char} {j : Nat}
    (h : lastOccIdx pat text = some j) : pat.isPrefixOf (text.drop j) = true :=
  (mem_occIdxs.mp (getLast?_mem_list h)).2

theorem drop_all_of_le {l : List Char} {i : Nat} (h : l.length ≤ i) : l.drop i = [] :=
  List.drop_eq_nil_of_le h

theorem not_isPrefixOf_nil {pat : List Char} (h : pat ≠ []) : pat.isPrefixOf ([] : List Char) = false := by
  cases pat with
  | nil => exact absurd rfl h
  | cons a as => simp [List.isPrefixOf]

theorem lastOccIdx_maximal {pat text : List Char} {j i : Nat} (hne : pat ≠ [])
    (h : lastOccIdx pat text = some j) (hji : j < i) :
    ¬ pat.isPrefixOf (text.drop i) = true := by
  intro hpre
  by_cases hi : i < text.length + 1
  · have hmem : i ∈ occIdxs pat text := mem_occIdxs.mpr ⟨hi, hpre⟩
    have := pairwise_lt_getLast_le _ j (occIdxs_pairwise pat text) h i hmem
    omega
  · rw [drop_all_of_le (by omega)] at hpre
    rw [not_isPrefixOf_nil hne] at hpre
    exact Bool.false_ne_true hpre

theorem lastOccIdx_none {pat text : List Char} (hne : pat ≠ [])
    (h : lastOccIdx pat text = none) : ∀ i, ¬ pat.isPrefixOf (text.drop i) = true := by
  intro i hpre
  by_cases hi : i < text.length + 1
  · have hmem : i ∈ occIdxs pat text := mem_occIdxs.mpr ⟨hi, hpre⟩
    have hnil : occIdxs pat text = [] := List.getLast?_eq_none_iff.mp (by simpa [lastOccIdx] using h)
    rw [hnil] at hmem
    simp at hmem
  · rw [drop_all_of_le (by omega)] at hpre
    rw [not_isPrefixOf_nil hne] at hpre
    exact Bool.false_ne_true hpre

theorem closeTag_ne_nil : closeTag ≠ [] := by decide

theorem ollamaXmlMatchesAux_eq_nil {text : List Char}
    (h : ∀ i, ¬ closeTag.isPrefixOf (text.drop i) = true) :
    ∀ fuel, ollamaXmlMatchesAux fuel text = [] := by
  intro fuel
  cases fuel with
  | zero => rfl
  | succ fuel =>
    cases hf : firstOccIdx openTag text with
    | none => simp [ollamaXmlMatchesAux, hf]
    | some l =>
      cases hl : lastOccIdx closeTag (text.drop (l + 11)) with
      | none => simp [ollamaXmlMatchesAux, hf, hl]
      | some j =>
        exfalso
        have hpre := lastOccIdx_isPrefix hl
        rw [List.drop_drop] at hpre
        exact h (l + 11 + j) hpre

theorem ollamaXmlMatchesAux_length_le_one (fuel : Nat) (text : List Char) :
    (ollamaXmlMatchesAux fuel text).length ≤ 1 := by
  cases fuel with
  | zero => simp [ollamaXmlMatchesAux]
  | succ fuel =>
    cases hf : firstOccIdx openTag text with
    | none => simp [ollamaXmlMatchesAux, hf]
    | some l =>
      cases hl : lastOccIdx closeTag (text.drop (l + 11)) with
      | none => simp [ollamaXmlMatchesAux, hf, hl]
      | some j =>
        have hnil : ollamaXmlMatchesAux fuel ((text.drop (l + 11)).drop (j + 12)) = [] := by
          apply ollamaXmlMatchesAux_eq_nil
          intro i
          have heq : ((text.drop (l + 11)).drop (j + 12)).drop i
              = (text.drop (l + 11)).drop (j + 12 + i) := List.drop_drop i (j + 12) _
          rw [heq]
          exact lastOccIdx_maximal closeTag_ne_nil hl (by omega)
        rw [List.drop_drop] at hnil
        simp [ollamaXmlMatchesAux, hf, hl, hnil]

/-- C2: for every parsed candidate set containing both a `final_answer`
invocation and at least one other invocation, the exclusivity step returns
the set with every `final_answer` invocation removed and all others kept
(`List.filter`); a candidate set without this mix is returned unchanged. -/
theorem final_answer_exclusivity (calls : List ToolCall) :
    ((∃ c ∈ calls, c.name = finalAnswerName) → (∃ c ∈ calls, c.name ≠ finalAnswerName) →
      stripFinalAnswer calls = calls.filter (fun c => !(c.name == finalAnswerName))) ∧
    (¬ ((∃ c ∈ calls, c.name = finalAnswerName) ∧ (∃ c ∈ calls, c.name ≠ finalAnswerName)) →
      stripFinalAnswer calls = calls) := by
  have hA : (calls.any (fun c => c.name == finalAnswerName) = true) ↔
      (∃ c ∈ calls, c.name = finalAnswerName) := by
    simp [List.any_eq_true]
  have hB : (calls.any (fun c => !(c.name == finalAnswerName)) = true) ↔
      (∃ c ∈ calls, c.name ≠ finalAnswerName) := by
    simp [List.any_eq_true]
  constructor
  · intro h1 h2
    simp [stripFinalAnswer, hA.mpr h1, hB.mpr h2]
  · intro h
    rw [not_and_or] at h
    rcases h with h | h
    · have hA' : calls.any (fun c => c.name == finalAnswerName) = false :=
        Bool.eq_false_iff.mpr (fun hh => h (hA.mp hh))
      simp [stripFinalAnswer, hA']
    · have hB' : calls.any (fun c => !(c.name == finalAnswerName)) = false :=
        Bool.eq_false_iff.mpr (fun hh => h (hB.mp hh))
      simp [stripFinalAnswer, hB']

/-- Witness for C2 at a concrete mixed candidate set. -/
theorem final_answer_exclusivity_witness :
    stripFinalAnswer [⟨finalAnswerName, Json.obj []⟩, bashLsCall] = [bashLsCall] := by
  have h := (final_answer_exclusivity [⟨finalAnswerName, Json.obj []⟩, bashLsCall]).1
    ⟨⟨finalAnswerName, Json.obj []⟩, List.mem_cons_self _ _, rfl⟩
    ⟨bashLsCall, List.mem_cons_of_mem _ (List.mem_cons_self _ _), by decide⟩
  rw [h]
  rfl

/-- C3: executing a `final_answer` call is rejected with the
hallucinated-terminal error exactly when the count of non-`final_answer`
tool invocations recorded so far is zero, and passes this check (reaching
`super().execute_tool_call`, i.e. `.ok`) with unchanged state once that
count is at least 1; a rejection is an `.error`, which never reaches the
dispatcher. -/
theorem hallucinated_terminal_guard (st : AgentState) (args : Json) :
    (actualToolCallCount st.memorySteps = 0 →
      execute_tool_call st finalAnswerName args = .error .hallucinatedTerminal) ∧
    (0 < actualToolCallCount st.memorySteps →
      execute_tool_call st finalAnswerName args = .ok st) := by
  constructor <;> intro h
  · simp [execute_tool_call, h]
  · have h0 : (actualToolCallCount st.memorySteps == 0) = false :=
      beq_eq_false_iff_ne.mpr (by omega)
    simp [execute_tool_call, h0]

/-- Witness for C3: with one recorded `bash` call, `final_answer` passes
the guard. -/
theorem hallucinated_terminal_guard_witness :
    execute_tool_call ⟨none, [[ "bash".toList]]⟩ finalAnswerName (Json.obj []) =
      .ok ⟨none, [[ "bash".toList]]⟩ :=
  (hallucinated_terminal_guard ⟨none, [[ "bash".toList]]⟩ (Json.obj [])).2 (by decide)

/-- C4: a non-terminal call whose signature equals the stored signature of
the immediately preceding non-terminal call is rejected with the
repeated-call error; otherwise it is accepted and the stored signature is
updated; the same call is accepted after an intervening different
non-terminal call; `final_answer` is never rejected by this check and
never updates the stored signature. -/
theorem repeated_call_guard (st : AgentState) (toolName : List Char) (args : Json)
    (hname : toolName ≠ finalAnswerName) :
    (st.lastToolCall = some (callSignature toolName args) →
      execute_tool_call st toolName args = .error .repeatedCall) ∧
    (st.lastToolCall ≠ some (callSignature toolName args) →
      execute_tool_call st toolName args =
        .ok { st with lastToolCall := some (callSignature toolName args) }) ∧
    (∀ name2 args2 st2, name2 ≠ finalAnswerName →
      execute_tool_call st name2 args2 = .ok st2 →
      callSignature name2 args2 ≠ callSignature toolName args →
      execute_tool_call st2 toolName args =
        .ok { st2 with lastToolCall := some (callSignature toolName args) }) ∧
    (∀ argsF, execute_tool_call st finalAnswerName argsF ≠ .error .repeatedCall) ∧
    (∀ argsF st', execute_tool_call st finalAnswerName argsF = .ok st' →
      st'.lastToolCall = st.lastToolCall) := by
  have hnb : (toolName == finalAnswerName) = false := beq_eq_false_iff_ne.mpr hname
  refine ⟨?_, ?_, ?_, ?_, ?_⟩
  · intro hlast
    simp [execute_tool_call, hnb, hlast]
  · intro hlast
    have hc : (st.lastToolCall == some (callSignature toolName args)) = false :=
      beq_eq_false_iff_ne.mpr hlast
    simp [execute_tool_call, hnb, hc]
  · intro name2 args2 st2 hname2 hexec hsig
    have hnb2 : (name2 == finalAnswerName) = false := beq_eq_false_iff_ne.mpr hname2
    by_cases hc : (st.lastToolCall == some (callSignature name2 args2)) = true
    · simp [execute_tool_call, hnb2, hc] at hexec
    · simp [execute_tool_call, hnb2, Bool.eq_false_iff.mpr hc] at hexec
      have hc2 : (st2.lastToolCall == some (callSignature toolName args)) = false := by
        rw [← hexec]
        exact beq_eq_false_iff_ne.mpr (by simp [hsig])
      simp [execute_tool_call, hnb, hc2, ← hexec]
      exact hsig
  · intro argsF hcontra
    simp [execute_tool_call] at hcontra
    revert hcontra
    split <;> simp
  · intro argsF st' hst'
    simp [execute_tool_call] at hst'
    revert hst'
    split
    · simp
    · intro hst'
      injection hst' with hh
      rw [← hh]

/-- Witness for C4: an immediate repetition of a `bash` call is rejected. -/
theorem repeated_call_guard_witness :
    execute_tool_call ⟨some (callSignature ( "bash".toList) (Json.obj [])), []⟩
      ( "bash".toList) (Json.obj []) = .error .repeatedCall :=
  ((repeated_call_guard ⟨some (callSignature ( "bash".toList) (Json.obj [])), []⟩
    ( "bash".toList) (Json.obj []) (by decide)).1) rfl

/-- C1 counterexample: a reply with two tagged blocks (the non-greedy scan
finds exactly 2) makes the Ollama parser return zero calls with one
dropped candidate — no error — and makes the OpenRouter parser accept both
calls, contradicting "raises a ProtocolViolation rather than accepting any
of the calls". -/
theorem multi_block_counterexample :
    (scanLazy openTag closeTag twoBlockReply).length = 2 ∧
    ollama_parse_tool_calls twoBlockReply = .ok ⟨[], 1⟩ ∧
    openrouter_parse_tool_calls twoBlockReply = ⟨[getEnvCall, bashLsCall], 0⟩ :=
  ⟨rfl, rfl, rfl⟩

/-- C1 (amended): a reply with two or more tagged blocks never raises the
protocol violation: the Ollama parser's greedy regex yields at most one
match for any text, so its more-than-one check is unreachable; on the
two-block reply the merged span fails JSON decoding and is dropped
(zero calls), while the OpenRouter parser parses the blocks separately and
accepts all of them. -/
theorem multi_block_no_protocol_violation :
    (∀ fuel text, (ollamaXmlMatchesAux fuel text).length ≤ 1) ∧
    (∀ text : List Char, ollamaTaggedScan text = .error .attributeError ∨
      ∃ r, ollamaTaggedScan text = .ok r) ∧
    ollama_parse_tool_calls twoBlockReply = .ok ⟨[], 1⟩ ∧
    openrouter_parse_tool_calls twoBlockReply = ⟨[getEnvCall, bashLsCall], 0⟩ := by
  refine ⟨ollamaXmlMatchesAux_length_le_one, ?_, rfl, rfl⟩
  intro text
  have hlen : (ollamaXmlMatches text).length ≤ 1 :=
    ollamaXmlMatchesAux_length_le_one _ _
  rw [ollamaTaggedScan, if_neg (by omega)]
  rcases hms : ollamaXmlMatches text with _ | ⟨x, tl⟩
  · exact Or.inr ⟨([], 0), rfl⟩
  · rcases tl with _ | ⟨y, tl'⟩
    · rcases hx : ollamaProcessBlock x with c | _ | _
      · exact Or.inr ⟨([c], 0), by
          simp [List.foldlM, hx, pure, Except.pure, Bind.bind, Except.bind]⟩
      · exact Or.inr ⟨([], 1), by
          simp [List.foldlM, hx, pure, Except.pure, Bind.bind, Except.bind]⟩
      · exact Or.inl (by simp [List.foldlM, hx, pure, Except.pure, Bind.bind, Except.bind])
    · rw [hms] at hlen
      simp at hlen

/-- C7: before JSON decoding, the Ollama parser appends exactly
`count('\x7b') - count('\x7d')` closing braces when the former exceeds the
latter (and leaves the block unchanged otherwise); consequently a block
truncated by one missing closing brace parses to the same ToolCall as the
untruncated block; a block whose decode still fails after the repair is
dropped and counted as a malformed candidate instead of crashing the
loop. -/
theorem brace_repair_spec :
    (∀ s : List Char, s.count '\x7d' < s.count '\x7b' →
      braceFix s = s ++ List.replicate (s.count '\x7b' - s.count '\x7d') '\x7d') ∧
    (∀ s : List Char, ¬ s.count '\x7d' < s.count '\x7b' → braceFix s = s) ∧
    ollama_parse_tool_calls truncatedReply = ollama_parse_tool_calls untruncatedReply ∧
    ollama_parse_tool_calls untruncatedReply = .ok ⟨[bashLsCall], 0⟩ ∧
    ollama_parse_tool_calls stillBadReply = .ok ⟨[], 1⟩ := by
  refine ⟨?_, ?_, rfl, rfl, rfl⟩ <;> intro s h <;> simp [braceFix, h]

/-- Witness for C7: a block with one missing closing brace gets exactly
one appended. -/
theorem brace_repair_spec_witness :
    braceFix ( "\x7b\"a\": 1".toList) = ( "\x7b\"a\": 1".toList) ++ List.replicate 1 '\x7d' :=
  brace_repair_spec.1 ( "\x7b\"a\": 1".toList) (by decide)

/-- C9 counterexample: in `mixedReply` a tagged block is present (the
tagged scan captures `"not json"`), yet the fenced ```json block
contributes the only accepted call — because the fallback is gated on the
candidate list being empty, not on the absence of tagged blocks. -/
theorem fenced_fallback_counterexample :
    ollamaXmlMatches mixedReply = [ "not json".toList] ∧
    fencedJsonCalls mixedReply = [bashLsCall] ∧
    ollama_parse_tool_calls mixedReply = .ok ⟨[bashLsCall], 1⟩ :=
  ⟨rfl, rfl, rfl⟩

/-- C9 (amended): both parsers attempt the fenced-JSON fallback exactly
when the tagged-block pass produced no candidate calls — either because no
tagged block is present or because every tagged candidate failed to
decode; any decodable tagged block suppresses the fenced blocks. -/
theorem fenced_fallback_amended :
    (∀ (text : List Char) (cs : List ToolCall) (d : Nat),
      ollamaTaggedScan text = .ok (cs, d) → cs ≠ [] →
      ollama_parse_tool_calls text = .ok ⟨stripFinalAnswer cs, d⟩) ∧
    (∀ (text : List Char) (d : Nat), ollamaTaggedScan text = .ok ([], d) →
      ollama_parse_tool_calls text = .ok ⟨stripFinalAnswer (fencedJsonCalls text), d⟩) ∧
    (∀ text : List Char, (openrouterTaggedScan text).1 ≠ [] →
      openrouter_parse_tool_calls text =
        ⟨stripFinalAnswer (openrouterTaggedScan text).1, (openrouterTaggedScan text).2⟩) ∧
    (∀ text : List Char, (openrouterTaggedScan text).1 = [] →
      openrouter_parse_tool_calls text =
        ⟨stripFinalAnswer (fencedJsonCalls text), (openrouterTaggedScan text).2⟩) := by
  refine ⟨?_, ?_, ?_, ?_⟩
  · intro text cs d h hne
    have hcs : cs.isEmpty = false := by
      cases cs with
      | nil => exact absurd rfl hne
      | cons x xs => rfl
    simp [ollama_parse_tool_calls, h, hcs]
  · intro text d h
    simp [ollama_parse_tool_calls, h]
  · intro text hne
    have hcs : (openrouterTaggedScan text).1.isEmpty = false := by
      cases hx : (openrouterTaggedScan text).1 with
      | nil => exact absurd hx hne
      | cons x xs => rfl
    simp [openrouter_parse_tool_calls, hcs]
  · intro text h
    simp [openrouter_parse_tool_calls, h]

/-- Witness for C9 (amended): a decodable tagged block suppresses the
fallback step. -/
theorem fenced_fallback_amended_witness :
    ollama_parse_tool_calls truncatedReply = .ok ⟨stripFinalAnswer [bashLsCall], 0⟩ :=
  fenced_fallback_amended.1 truncatedReply [bashLsCall] 0 rfl (List.cons_ne_nil _ _)

theorem dropWhile_head_not {p : Char → Bool} :
    ∀ {l : List Char} {c : Char}, (l.dropWhile p).head? = some c → p c = false := by
  intro l
  induction l with
  | nil => intro c h; simp at h
  | cons a t ih =>
    intro c h
    by_cases ha : p a
    · rw [List.dropWhile_cons_of_pos ha] at h
      exact ih h
    · rw [List.dropWhile_cons_of_neg ha] at h
      simp at h
      rw [h] at ha
      exact Bool.eq_false_iff.mpr ha

theorem dropWhile_of_head_not {p : Char → Bool} {l : List Char} {c : Char}
    (hh : l.head? = some c) (hc : p c = false) : l.dropWhile p = l := by
  cases l with
  | nil => simp at hh
  | cons a t =>
    simp at hh
    rw [← hh] at hc
    exact List.dropWhile_cons_of_neg (by simp [hc])

theorem dropWhile_getLast? {p : Char → Bool} :
    ∀ (l : List Char), l.dropWhile p ≠ [] → (l.dropWhile p).getLast? = l.getLast? := by
  intro l
  induction l with
  | nil => intro h; simp at h
  | cons a t ih =>
    intro h
    by_cases ha : p a
    · rw [List.dropWhile_cons_of_pos ha] at h ⊢
      have ht : t ≠ [] := by
        intro hnil
        rw [hnil] at h
        simp at h
      rw [ih h]
      cases t with
      | nil => exact absurd rfl ht
      | cons b t' => rw [List.getLast?_cons_cons]
    · rw [List.dropWhile_cons_of_neg ha]

theorem pyStrip_head_not {s : List Char} {c : Char}
    (h : (pyStrip s).head? = some c) : isWS c = false :=
  dropWhile_head_not h

theorem pyStrip_getLast_not {s : List Char} {c : Char}
    (h : (pyStrip s).getLast? = some c) : isWS c = false := by
  have hne : pyStrip s ≠ [] := by
    intro hnil
    rw [hnil] at h
    simp at h
  rw [pyStrip, dropWhile_getLast? _ hne] at h
  rw [← List.head?_reverse, List.reverse_reverse] at h
  exact dropWhile_head_not h

theorem theValueIs_append_ne {obs : List Char} (hne : pyStrip obs ≠ []) :
    theValueIs ++ pyStrip obs ≠ obs := by
  intro heq
  have h1 : pyStrip obs = pyStrip (theValueIs ++ pyStrip obs) := by rw [heq]
  obtain ⟨c, hc⟩ : ∃ c, (pyStrip obs).getLast? = some c := by
    cases htl : (pyStrip obs).getLast? with
    | none => exact absurd (List.getLast?_eq_none_iff.mp htl) hne
    | some c => exact ⟨c, rfl⟩
  have hcw : isWS c = false := pyStrip_getLast_not hc
  have hfix : pyStrip (theValueIs ++ pyStrip obs) = theValueIs ++ pyStrip obs := by
    have hrevhead : (theValueIs ++ pyStrip obs).reverse.head? = some c := by
      rw [List.reverse_append, List.head?_append, List.head?_reverse, hc]
      rfl
    have hrh : ((theValueIs ++ pyStrip obs).reverse.dropWhile isWS).reverse
        = theValueIs ++ pyStrip obs := by
      rw [dropWhile_of_head_not hrevhead hcw, List.reverse_reverse]
    have hhead : (theValueIs ++ pyStrip obs).head? = some 'T' := rfl
    rw [pyStrip, hrh, dropWhile_of_head_not hhead (by decide)]
  have hlen := congrArg List.length (h1.trans hfix)
  rw [List.length_append] at hlen
  have h14 : theValueIs.length = 14 := by decide
  omega

theorem emptyObs_ne {obs : List Char} (h : pyStrip obs = []) : obs ≠ emptyObsMessage := by
  intro heq
  rw [heq] at h
  have hne : pyStrip emptyObsMessage ≠ [] := by decide
  exact hne h

/-- C10: for a recorded action step with a present observation whose tool
is not `final_answer`, the tool-result message is never the raw
observation: an observation that strips to empty is replaced by the fixed
no-output sentence, and otherwise the message is the stripped observation
prefixed with `"The value is: "`; for `final_answer` the empty-observation
substitution is skipped and the prefix form is always used. -/
theorem observation_formatting_spec (step : ActionStep) (obs : List Char)
    (hobs : step.observations = some obs) :
    (stepToolName step ≠ finalAnswerName →
      (pyStrip obs = [] →
        toMessagesToolResponse step = some emptyObsMessage ∧ obs ≠ emptyObsMessage) ∧
      (pyStrip obs ≠ [] →
        toMessagesToolResponse step = some (theValueIs ++ pyStrip obs) ∧
        theValueIs ++ pyStrip obs ≠ obs)) ∧
    (stepToolName step = finalAnswerName →
      toMessagesToolResponse step = some (theValueIs ++ pyStrip obs)) := by
  constructor
  · intro hname
    have hnb : (stepToolName step == finalAnswerName) = false := beq_eq_false_iff_ne.mpr hname
    constructor
    · intro hempty
      refine ⟨?_, emptyObs_ne hempty⟩
      simp [toMessagesToolResponse, hobs, formattedObservation, hnb, hempty]
    · intro hne2
      refine ⟨?_, theValueIs_append_ne hne2⟩
      have hb : (pyStrip obs == ([] : List Char)) = false := beq_eq_false_iff_ne.mpr hne2
      simp [toMessagesToolResponse, hobs, formattedObservation, hnb, hb]
      exact fun hcontra => absurd hcontra hne2
  · intro hname
    simp [toMessagesToolResponse, hobs, formattedObservation, hname]

/-- Witness for C10: a `bash` step whose observation is one space gets the
fixed no-output sentence. -/
theorem observation_formatting_spec_witness :
    toMessagesToolResponse ⟨[ "bash".toList], some ( " ".toList)⟩ = some emptyObsMessage :=
  (((observation_formatting_spec ⟨[ "bash".toList], some ( " ".toList)⟩ ( " ".toList) rfl).1
    (by decide)).1 (by decide)).1

theorem retry_prefix429_reaches (responses : Nat → HttpResp) (k : Nat) (hk : k < maxRetries)
    (h429 : ∀ i, i < k → (responses i).status = 429)
    (hne : (responses k).status ≠ 429) :
    openrouter_generate_retry responses maxRetries 0 =
      ((List.range k).map (fun a => min (baseDelay * 2 ^ a) maxDelay),
        if respOk (responses k) then .ok (responses k)
        else .error (.httpError (responses k).status (errDetail (responses k).body))) := by
  have hk5 : k < 5 := by simpa [maxRetries] using hk
  interval_cases k
  · cases hok : respOk (responses 0) <;>
      simp [openrouter_generate_retry, maxRetries, hne, hok]
  · have h0 := h429 0 (by omega)
    cases hok : respOk (responses 1) <;>
      simp [openrouter_generate_retry, maxRetries, h0, hne, hok, List.range_succ]
  · have h0 := h429 0 (by omega)
    have h1 := h429 1 (by omega)
    cases hok : respOk (responses 2) <;>
      simp [openrouter_generate_retry, maxRetries, h0, h1, hne, hok, List.range_succ]
  · have h0 := h429 0 (by omega)
    have h1 := h429 1 (by omega)
    have h2 := h429 2 (by omega)
    cases hok : respOk (responses 3) <;>
      simp [openrouter_generate_retry, maxRetries, h0, h1, h2, hne, hok, List.range_succ]
  · have h0 := h429 0 (by omega)
    have h1 := h429 1 (by omega)
    have h2 := h429 2 (by omega)
    have h3 := h429 3 (by omega)
    cases hok : respOk (responses 4) <;>
      simp [openrouter_generate_retry, maxRetries, h0, h1, h2, h3, hne, hok, List.range_succ]

theorem retry_exhausted (responses : Nat → HttpResp)
    (h429 : ∀ i, i < maxRetries → (responses i).status = 429) :
    openrouter_generate_retry responses maxRetries 0 =
      ((List.range (maxRetries - 1)).map (fun a => min (baseDelay * 2 ^ a) maxDelay),
        .error (.rateLimited 429 maxRetries
          (errDetail (responses (maxRetries - 1)).body))) := by
  have h0 := h429 0 (by simp [maxRetries])
  have h1 := h429 1 (by simp [maxRetries])
  have h2 := h429 2 (by simp [maxRetries])
  have h3 := h429 3 (by simp [maxRetries])
  have h4 := h429 4 (by simp [maxRetries])
  simp [openrouter_generate_retry, maxRetries, h0, h1, h2, h3, h4, List.range_succ]

/-- C5: if the first `k < 5` responses are 429 and the next succeeds, the
retry loop sleeps `min(base * 2^attempt, cap)` after each failure and
returns the successful response without an error; five consecutive 429s
produce an error carrying the status and the retry count; a non-429
failing (status ≥ 400) response reached at any attempt — after any
rate-limited prefix — is never retried: the loop stops there with an
immediate error and no further sleeps. -/
theorem retry_backoff_spec :
    (∀ (responses : Nat → HttpResp) (k : Nat), k < maxRetries →
      (∀ i, i < k → (responses i).status = 429) → (responses k).status < 400 →
      openrouter_generate_retry responses maxRetries 0 =
        ((List.range k).map (fun a => min (baseDelay * 2 ^ a) maxDelay),
          .ok (responses k))) ∧
    (∀ responses : Nat → HttpResp,
      (∀ i, i < maxRetries → (responses i).status = 429) →
      openrouter_generate_retry responses maxRetries 0 =
        ((List.range (maxRetries - 1)).map (fun a => min (baseDelay * 2 ^ a) maxDelay),
          .error (.rateLimited 429 maxRetries
            (errDetail (responses (maxRetries - 1)).body)))) ∧
    (∀ (responses : Nat → HttpResp) (k : Nat), k < maxRetries →
      (∀ i, i < k → (responses i).status = 429) →
      (responses k).status ≠ 429 → 400 ≤ (responses k).status →
      openrouter_generate_retry responses maxRetries 0 =
        ((List.range k).map (fun a => min (baseDelay * 2 ^ a) maxDelay),
          .error (.httpError (responses k).status (errDetail (responses k).body)))) := by
  refine ⟨?_, ?_, ?_⟩
  · intro responses k hk h429 hok
    have hne : (responses k).status ≠ 429 := by omega
    have hro : respOk (responses k) = true := by
      simp [respOk]
      omega
    rw [retry_prefix429_reaches responses k hk h429 hne, hro]
    simp
  · intro responses h429
    exact retry_exhausted responses h429
  · intro responses k hk h429 hne hge
    have hro : respOk (responses k) = false := by
      simp [respOk]
      omega
    rw [retry_prefix429_reaches responses k hk h429 hne, hro]
    simp

/-- Witness for C5: an immediately successful response is returned with no
backoff sleeps. -/
theorem retry_backoff_spec_witness :
    openrouter_generate_retry (fun _ => ⟨200, [ 'o', 'k']⟩) maxRetries 0 =
      ([], .ok ⟨200, [ 'o', 'k']⟩) :=
  retry_backoff_spec.1 (fun _ => ⟨200, [ 'o', 'k']⟩) 0 (by decide)
    (fun i hi => absurd hi (Nat.not_lt_zero i)) (by decide)

/-- C8 counterexample: an HTTP 301 response — a non-2xx status — is not
surfaced as an error by the Ollama backend (`resp.ok` is `status < 400`):
the body is decoded and returned as a normal assistant message. -/
theorem transport_error_counterexample :
    ollamaHandleResponse ⟨301, redirectBody⟩ = .ok ⟨assistantRole, [ 'h', 'i']⟩ :=
  rfl

/-- C8 (amended): the Ollama backend surfaces every response with status
≥ 400 (`not resp.ok`) and every ok-status response with an undecodable
body as an error carrying the status or detail.  The OpenRouter backend
retries a 429 with backoff instead of surfacing it, and surfaces the
rate-limit error only after five consecutive 429s; any non-429 response
with status ≥ 400 reached after such a 429 prefix is surfaced immediately
as an error carrying status and detail, and an ok-status response with an
undecodable body is surfaced as a decode error.  No assistant message is
returned in place of any of these errors; but a 3xx status with a
decodable body is treated as success, and a decodable envelope whose
content field is absent yields an empty-content message rather than an
error. -/
theorem transport_error_amended :
    (∀ resp : HttpResp, ¬ resp.status < 400 →
      ollamaHandleResponse resp = .error (.httpError resp.status resp.body)) ∧
    (∀ resp : HttpResp, resp.status < 400 → jsonParse resp.body = none →
      ollamaHandleResponse resp = .error .jsonDecode) ∧
    (∀ (responses : Nat → HttpResp) (k : Nat), k < maxRetries →
      (∀ i, i < k → (responses i).status = 429) →
      (responses k).status ≠ 429 → 400 ≤ (responses k).status →
      (openrouter_generate responses).2 =
        .error (.httpError (responses k).status (errDetail (responses k).body))) ∧
    (∀ (responses : Nat → HttpResp) (k : Nat), k < maxRetries →
      (∀ i, i < k → (responses i).status = 429) →
      (responses k).status < 400 → jsonParse (responses k).body = none →
      (openrouter_generate responses).2 = .error .jsonDecode) ∧
    (∀ responses : Nat → HttpResp,
      (∀ i, i < maxRetries → (responses i).status = 429) →
      (openrouter_generate responses).2 =
        .error (.rateLimited 429 maxRetries
          (errDetail (responses (maxRetries - 1)).body))) ∧
    ollamaHandleResponse ⟨200, emptyEnvelopeBody⟩ = .ok ⟨assistantRole, []⟩ := by
  refine ⟨?_, ?_, ?_, ?_, ?_, rfl⟩
  · intro resp h
    simp [ollamaHandleResponse, respOk, h]
  · intro resp h hj
    simp [ollamaHandleResponse, respOk, h, hj]
  · intro responses k hk h429 hne hge
    have hro : respOk (responses k) = false := by
      simp [respOk]
      omega
    have hr2 : openrouter_generate_retry responses maxRetries 0 =
        ((List.range k).map (fun a => min (baseDelay * 2 ^ a) maxDelay),
          .error (.httpError (responses k).status (errDetail (responses k).body))) := by
      rw [retry_prefix429_reaches responses k hk h429 hne, hro]
      simp
    simp [openrouter_generate, hr2, Except.bind]
  · intro responses k hk h429 hlt hj
    have hne : (responses k).status ≠ 429 := by omega
    have hro : respOk (responses k) = true := by
      simp [respOk]
      omega
    have hr2 : openrouter_generate_retry responses maxRetries 0 =
        ((List.range k).map (fun a => min (baseDelay * 2 ^ a) maxDelay),
          .ok (responses k)) := by
      rw [retry_prefix429_reaches responses k hk h429 hne, hro]
      simp
    simp [openrouter_generate, hr2, Except.bind, hj]
  · intro responses h429
    simp [openrouter_generate, retry_exhausted responses h429, Except.bind]

/-- Witness for C8 (amended): a 500 response is an error carrying the
status and body. -/
theorem transport_error_amended_witness :
    ollamaHandleResponse ⟨500, [ 'e', 'r', 'r']⟩ = .error (.httpError 500 [ 'e', 'r', 'r']) :=
  transport_error_amended.1 ⟨500, [ 'e', 'r', 'r']⟩ (by decide)

theorem retryTimed_head (s : Nat → Nat) (d : Nat → ℚ) (fuel a : Nat) (now last : ℚ)
    {t : ℚ} (h : (retryTimed s d fuel a now last).times.head? = some t) : t = now := by
  cases fuel with
  | zero => simp [retryTimed] at h
  | succ fuel =>
    rw [retryTimed] at h
    repeat' split at h
    all_goals simp_all

theorem retryTimed_last (s : Nat → Nat) (d : Nat → ℚ) :
    ∀ (fuel a : Nat) (now last : ℚ),
      (retryTimed s d fuel a now last).times.getLast?.getD last =
        (retryTimed s d fuel a now last).last := by
  intro fuel
  induction fuel with
  | zero => intro a now last; simp [retryTimed]
  | succ fuel ih =>
    intro a now last
    rw [retryTimed]
    by_cases h429 : s a = 429
    · rw [if_pos h429]
      by_cases hlt : a < maxRetries - 1
      · rw [if_pos hlt]
        dsimp only
        have hih := ih (a + 1) (now + d a + min (baseDelay * 2 ^ a) maxDelay) now
        cases hr : (retryTimed s d fuel (a + 1)
            (now + d a + min (baseDelay * 2 ^ a) maxDelay) now).times with
        | nil =>
          rw [hr] at hih
          simp at hih ⊢
          exact hih
        | cons x xs =>
          rw [List.getLast?_cons_cons]
          rw [hr] at hih
          obtain ⟨y, hy⟩ : ∃ y, (x :: xs).getLast? = some y := by
            cases hxy : (x :: xs).getLast? with
            | none => exact absurd (List.getLast?_eq_none_iff.mp hxy) (by simp)
            | some y => exact ⟨y, rfl⟩
          rw [hy] at hih ⊢
          simp at hih ⊢
          exact hih
      · rw [if_neg hlt]
        simp
    · rw [if_neg h429]
      split <;> simp

theorem generateTimed_head {delay : ℚ} {c : GenCall} {now last : ℚ} {t : ℚ}
    (h : (generateTimed delay c now last).times.head? = some t) :
    t = if 0 < delay ∧ (now + c.idle) - last < delay then last + delay else now + c.idle := by
  rw [generateTimed] at h
  exact retryTimed_head _ _ _ _ _ _ h

theorem generateTimed_last {delay : ℚ} {c : GenCall} {now last : ℚ} {l : ℚ}
    (h : (generateTimed delay c now last).times.getLast? = some l) :
    l = (generateTimed delay c now last).last := by
  have := retryTimed_last c.statuses c.durations maxRetries 0
    (if 0 < delay ∧ (now + c.idle) - last < delay then last + delay else now + c.idle) last
  rw [← generateTimed] at this
  rw [h] at this
  simpa using this

theorem runTimed_boundary (delay : ℚ) (hd : 0 < delay) :
    ∀ (calls : List GenCall) (now last : ℚ) (i : Nat) (ts1 ts2 : List ℚ) (l h : ℚ),
      (runTimed delay calls now last)[i]? = some ts1 →
      (runTimed delay calls now last)[i+1]? = some ts2 →
      ts1.getLast? = some l → ts2.head? = some h →
      delay ≤ h - l := by
  intro calls
  induction calls with
  | nil =>
    intro now last i ts1 ts2 l h h1 h2 hl hh
    simp [runTimed] at h1
  | cons c cs ih =>
    intro now last i ts1 ts2 l h h1 h2 hl hh
    simp only [runTimed] at h1 h2
    by_cases hok : (generateTimed delay c now last).ok
    · rw [if_pos hok] at h1 h2
      cases i with
      | zero =>
        simp only [List.getElem?_cons_zero, List.getElem?_cons_succ, Option.some.injEq] at h1 h2
        rw [← h1] at hl
        cases cs with
        | nil => simp [runTimed] at h2
        | cons c' cs' =>
          simp only [runTimed] at h2
          have h2' : (generateTimed delay c' (generateTimed delay c now last).now
              (generateTimed delay c now last).last).times = ts2 := by
            simpa using h2
          rw [← h2'] at hh
          have hhead := generateTimed_head hh
          have hlast := generateTimed_last hl
          rw [hlast]
          rw [hhead]
          split
          · linarith
          · rename_i hcond
            rw [not_and_or] at hcond
            rcases hcond with hcond | hcond
            · exact absurd hd hcond
            · linarith [not_lt.mp hcond]
      | succ i =>
        simp only [List.getElem?_cons_succ] at h1 h2
        exact ih _ _ i ts1 ts2 l h h1 h2 hl hh
    · rw [if_neg hok] at h1 h2
      cases i with
      | zero => simp at h2
      | succ i => simp at h1

theorem retryTimed_gap (s : Nat → Nat) (d : Nat → ℚ) :
    ∀ (fuel a : Nat) (now last : ℚ) (j : Nat) (t1 t2 : ℚ),
      (retryTimed s d fuel a now last).times[j]? = some t1 →
      (retryTimed s d fuel a now last).times[j+1]? = some t2 →
      t2 = t1 + d (a + j) + min (baseDelay * 2 ^ (a + j)) maxDelay ∧ s (a + j) = 429 := by
  intro fuel
  induction fuel with
  | zero =>
    intro a now last j t1 t2 h1 h2
    simp [retryTimed] at h1
  | succ fuel ih =>
    intro a now last j t1 t2 h1 h2
    rw [retryTimed] at h1 h2
    by_cases h429 : s a = 429
    · rw [if_pos h429] at h1 h2
      by_cases hlt : a < maxRetries - 1
      · rw [if_pos hlt] at h1 h2
        dsimp only at h1 h2
        cases j with
        | zero =>
          simp only [List.getElem?_cons_zero, List.getElem?_cons_succ,
            Option.some.injEq] at h1 h2
          have hh : (retryTimed s d fuel (a + 1)
              (now + d a + min (baseDelay * 2 ^ a) maxDelay) now).times.head? = some t2 := by
            cases hts : (retryTimed s d fuel (a + 1)
                (now + d a + min (baseDelay * 2 ^ a) maxDelay) now).times with
            | nil => rw [hts] at h2; simp at h2
            | cons z zs =>
              rw [hts] at h2
              simpa using h2
          have := retryTimed_head _ _ _ _ _ _ hh
          refine ⟨?_, by simpa using h429⟩
          rw [this, ← h1]
          simp
        | succ j =>
          simp only [List.getElem?_cons_succ] at h1 h2
          have := ih (a + 1) (now + d a + min (baseDelay * 2 ^ a) maxDelay) now j t1 t2 h1 h2
          rw [show a + (j + 1) = a + 1 + j from by omega]
          exact this
      · rw [if_neg hlt] at h1 h2
        dsimp only at h1 h2
        rcases j with _ | j <;> simp at h2
    · rw [if_neg h429] at h1 h2
      split at h2 <;> dsimp only at h2 <;> rcases j with _ | j <;> simp at h2

/-- C6 counterexample: with `rate_limit_delay = 3`, a generate call whose
first response is a 429 re-issues the request after the backoff sleep of
`min(1 * 2^0, 60) = 1` second — the two consecutive requests are 1 second
apart, less than the configured minimum spacing. -/
theorem rate_limit_spacing_counterexample :
    runTimed 3 [⟨0, fun _ => 0, fun i => if i = 0 then 429 else 200⟩] 100 0 = [[100, 101]] ∧
    (101 : ℚ) - 100 < 3 := by
  constructor
  · norm_num [runTimed, generateTimed, retryTimed, maxRetries, baseDelay, maxDelay]
  · norm_num

/-- C6 (amended): with rate limiting enabled (`delay > 0`), any request
that begins a `generate` call is issued at least `rate_limit_delay`
seconds after the last request of the preceding call; but a request
re-issued inside the retry loop follows the previous one by exactly the
request duration plus the backoff `min(base * 2^attempt, cap)`, which can
be less than the configured spacing — so the minimum spacing holds across
`generate` calls, not within the retry loop. -/
theorem rate_limit_spacing_amended :
    (∀ delay : ℚ, 0 < delay →
      ∀ (calls : List GenCall) (now last : ℚ) (i : Nat) (ts1 ts2 : List ℚ) (l h : ℚ),
        (runTimed delay calls now last)[i]? = some ts1 →
        (runTimed delay calls now last)[i+1]? = some ts2 →
        ts1.getLast? = some l → ts2.head? = some h →
        delay ≤ h - l) ∧
    (∀ (s : Nat → Nat) (d : Nat → ℚ) (fuel a : Nat) (now last : ℚ) (j : Nat) (t1 t2 : ℚ),
      (retryTimed s d fuel a now last).times[j]? = some t1 →
      (retryTimed s d fuel a now last).times[j+1]? = some t2 →
      t2 = t1 + d (a + j) + min (baseDelay * 2 ^ (a + j)) maxDelay ∧ s (a + j) = 429) :=
  ⟨runTimed_boundary, retryTimed_gap⟩

/-- Witness for C6 (amended): two back-to-back successful `generate`
calls with `rate_limit_delay = 3` issue their requests 3 seconds apart. -/
theorem rate_limit_spacing_amended_witness :
    runTimed 3 [⟨0, fun _ => 0, fun _ => 200⟩, ⟨0, fun _ => 0, fun _ => 200⟩] 100 0 =
      [[100], [103]] ∧ (3 : ℚ) ≤ 103 - 100 := by
  have e : runTimed 3 [⟨0, fun _ => 0, fun _ => 200⟩, ⟨0, fun _ => 0, fun _ => 200⟩] 100 0 =
      [[100], [103]] := by
    norm_num [runTimed, generateTimed, retryTimed, maxRetries, baseDelay, maxDelay]
  refine ⟨e, ?_⟩
  exact rate_limit_spacing_amended.1 3 (by norm_num)
    [⟨0, fun _ => 0, fun _ => 200⟩, ⟨0, fun _ => 0, fun _ => 200⟩] 100 0 0
    [100] [103] 100 103 (by rw [e]; rfl) (by rw [e]; rfl) rfl rfl
